import Mathlib

/-!
Verification of the acp-bridge daemon core (src/daemon.ts) against its
natural-language specification. The TypeScript functions are shallowly
embedded as executable Lean definitions; timestamps are passed in as opaque
strings, JavaScript numbers holding millisecond epochs are modelled as `Int`,
and the asynchronous ask executor is modelled by a pure completion function
driven by an oracle describing which racer won.
-/

namespace AcpBridge

/-! ## Character and string helpers (JS primitives used by daemon.ts) -/

/-- Word character in the sense of the JS regex `\b` boundary: `[A-Za-z0-9_]`. -/
def isWordChar (c : Char) : Bool :=
  (c ≥ 'a' && c ≤ 'z') || (c ≥ 'A' && c ≤ 'Z') || (c ≥ '0' && c ≤ '9') || c == '_'

/-- `String.prototype.startsWith`, on explicit character lists. -/
def startsWithChars : List Char → List Char → Bool
  | _, [] => true
  | [], _ :: _ => false
  | c :: cs, p :: ps => c == p && startsWithChars cs ps

/-- `String.prototype.includes`: some position of `cs` starts with `pat`. -/
def containsSub (cs pat : List Char) : Bool :=
  (List.range (cs.length + 1)).any (fun i => startsWithChars (cs.drop i) pat)

/-- ASCII whitespace test modelling the characters `String.prototype.trim`
removes in the inputs this daemon sees. -/
def isJsSpace (c : Char) : Bool :=
  c == ' ' || c == '\t' || c == '\n' || c == '\r'

/-- `String.prototype.trim` (ASCII whitespace). -/
def jsTrim (s : String) : String :=
  ⟨((s.data.dropWhile isJsSpace).reverse.dropWhile isJsSpace).reverse⟩

/-! ## Error classifier (`classifyAskError`, daemon.ts lines 294-316)

The regex `\b(401|403|429|503)\b` matches the leftmost standalone occurrence
of one of the four codes; `standaloneAt` is the `\b`-delimited match test at
one position and `scanIdx` is the left-to-right scan of the regex engine. -/

/-- The pattern `pat` matches at position `i` of `cs` with a `\b` boundary on
both sides. -/
def standaloneAt (cs : List Char) (i : Nat) (pat : List Char) : Bool :=
  ((cs.drop i).take pat.length == pat)
  && (i == 0 || !isWordChar (cs.getD (i - 1) ' '))
  && (i + pat.length ≥ cs.length || !isWordChar (cs.getD (i + pat.length) ' '))

/-- Digit list of each alternation branch of the status regex. -/
def digitsOf (code : Nat) : List Char :=
  if code == 401 then ['4', '0', '1']
  else if code == 403 then ['4', '0', '3']
  else if code == 429 then ['4', '2', '9']
  else ['5', '0', '3']

/-- Which of the four codes (if any) matches standalone at position `i`. -/
def codeMatchAt (cs : List Char) (i : Nat) : Option Nat :=
  if standaloneAt cs i (digitsOf 401) then some 401
  else if standaloneAt cs i (digitsOf 403) then some 403
  else if standaloneAt cs i (digitsOf 429) then some 429
  else if standaloneAt cs i (digitsOf 503) then some 503
  else none

/-- Left-to-right scan from position `i`, `rem` positions remaining. -/
def scanIdx (cs : List Char) (i : Nat) : Nat → Option Nat
  | 0 => none
  | rem + 1 =>
    match codeMatchAt cs i with
    | some c => some c
    | none => scanIdx cs (i + 1) rem

/-- `message.match(/\b(401|403|429|503)\b/)`: the code of the leftmost
standalone occurrence, if any. -/
def firstStatusMatch (cs : List Char) : Option Nat :=
  scanIdx cs 0 cs.length

/-- The user-facing message the status-code branch of `classifyAskError`
produces for a given matched code. -/
def statusMessage (code : Nat) : String :=
  if code == 401 || code == 403 then "API key invalid or expired. Check your key."
  else if code == 429 then "Rate limited. Check proxy quota."
  else "Service unavailable. Check proxy status."

/-- `classifyAskError` (daemon.ts lines 294-316) on the stringified message. -/
def classifyAskError (message : String) : String :=
  let cs := message.data
  let statusBranch : Option String :=
    match firstStatusMatch cs with
    | some code =>
      if code == 401 || code == 403 then some "API key invalid or expired. Check your key."
      else if code == 429 then some "Rate limited. Check proxy quota."
      else if code == 503 then some "Service unavailable. Check proxy status."
      else none
    | none => none
  match statusBranch with
  | some s => s
  | none =>
    if containsSub cs "ECONNREFUSED".data then "Connection refused. Check base URL."
    else if containsSub cs "ENOTFOUND".data then "DNS resolution failed. Check network."
    else message

/-- The message contains a standalone occurrence of `pat` somewhere. -/
def containsStandaloneB (cs pat : List Char) : Bool :=
  (List.range cs.length).any (fun i => standaloneAt cs i pat)

/-- The classifier exactly as claim C3 words it: rules applied in order,
`401`/`403` first regardless of position, then `429`, then `503`. -/
def classifyClaimRules (message : String) : String :=
  let cs := message.data
  if containsStandaloneB cs (digitsOf 401) || containsStandaloneB cs (digitsOf 403) then
    "API key invalid or expired. Check your key."
  else if containsStandaloneB cs (digitsOf 429) then "Rate limited. Check proxy quota."
  else if containsStandaloneB cs (digitsOf 503) then "Service unavailable. Check proxy status."
  else if containsSub cs "ECONNREFUSED".data then "Connection refused. Check base URL."
  else if containsSub cs "ENOTFOUND".data then "DNS resolution failed. Check network."
  else message

/-! ## Data model (daemon.ts lines 11-98) -/

/-- `AgentState` (daemon.ts line 11). -/
inductive AgentState
  | starting
  | idle
  | working
  | stopped
  | err
deriving DecidableEq, Repr

/-- `SubtaskState` (daemon.ts line 59). -/
inductive SubtaskState
  | pending
  | running
  | done
  | err
  | cancelled
deriving DecidableEq, Repr

/-- `TaskState` (daemon.ts line 60). -/
inductive TaskState
  | running
  | done
  | err
  | cancelled
deriving DecidableEq, Repr

/-- `HttpError` (daemon.ts lines 89-98): status code plus message. -/
structure HttpError where
  statusCode : Nat
  message : String
deriving DecidableEq, Repr

/-- One entry of `params.options` of an ACP `RequestPermissionRequest`. -/
structure PermissionOption where
  optionId : String
  kind : String
deriving DecidableEq, Repr

/-- The part of an ACP `RequestPermissionRequest` the daemon reads. -/
structure PermissionRequest where
  options : List PermissionOption
deriving DecidableEq, Repr

/-- `PendingPermission` (daemon.ts lines 13-18); the one-shot `resolve`
continuation is modelled by returning the resolution value to the caller. -/
structure PendingPermission where
  requestId : Nat
  params : PermissionRequest
  requestedAt : String
deriving DecidableEq, Repr

/-- The outcome a parked permission request is resolved with. -/
inductive PermissionOutcome
  | selected (optionId : String)
  | cancelled
deriving DecidableEq, Repr

/-- The pure state of an `AgentRecord` (daemon.ts lines 20-38); the child
process, ACP connection, session id and stderr buffer play no role in the
claims under verification and are omitted. -/
structure AgentRecord where
  name : String
  state : AgentState
  lastError : Option String
  lastText : String
  currentText : String
  stopReason : Option String
  pendingPermissions : List PendingPermission
  activeTask : Option (String × String)
  createdAt : String
  updatedAt : String
deriving DecidableEq, Repr

/-- What `askAgent` throws: an `HttpError` (the 408 timeout) or a plain
`Error` whose message the HTTP layer surfaces as a 500. -/
inductive AskError
  | http (e : HttpError)
  | plain (msg : String)
deriving DecidableEq, Repr

/-- `AskResult` (daemon.ts lines 1163-1168). -/
structure AskResult where
  name : String
  state : AgentState
  stopReason : Option String
  response : String
deriving DecidableEq, Repr

/-! ## Permission queue (daemon.ts lines 471-531) -/

/-- The `mode` parameter of `findPermissionOptionId`. -/
inductive ApproveMode
  | approve
  | deny
deriving DecidableEq, Repr

/-- The `decision` parameter of `resolvePendingPermission`. -/
inductive PermissionDecision
  | approve
  | deny
  | cancel
deriving DecidableEq, Repr

/-- `findPermissionOptionId` (daemon.ts lines 471-493). The explicit branch
guards on `explicitOptionId && ...`: by JS truthiness an explicitly supplied
empty string is treated as absent and falls through to the kind
preference. -/
def findPermissionOptionId (params : PermissionRequest) (mode : ApproveMode)
    (explicitOptionId : Option String) : Option String :=
  let fallback : Option String :=
    let prefKind := match mode with
      | .approve => "allow"
      | .deny => "reject"
    match params.options.find? (fun o => startsWithChars o.kind.data prefKind.data) with
    | some preferred => some preferred.optionId
    | none =>
      match params.options.head? with
      | some o => some o.optionId
      | none => none
  match explicitOptionId with
  | some e =>
    if !(e == "") && params.options.any (fun o => o.optionId == e) then some e else fallback
  | none => fallback

/-- `resolvePendingPermission` (daemon.ts lines 495-523): dequeue the head of
the queue and compute its resolution; returns the dequeued entry with its
outcome (or `none` when the queue was empty) and the updated record. -/
def resolvePendingPermission (record : AgentRecord) (decision : PermissionDecision)
    (explicitOptionId : Option String) (now : String) :
    Option (PendingPermission × PermissionOutcome) × AgentRecord :=
  match record.pendingPermissions with
  | [] => (none, record)
  | pending :: rest =>
    let outcome : PermissionOutcome :=
      match decision with
      | .cancel => .cancelled
      | .approve =>
        match findPermissionOptionId pending.params .approve explicitOptionId with
        | some optionId => .selected optionId
        | none => .cancelled
      | .deny =>
        match findPermissionOptionId pending.params .deny explicitOptionId with
        | some optionId => .selected optionId
        | none => .cancelled
    (some (pending, outcome), { record with pendingPermissions := rest, updatedAt := now })

/-- The `POST /agents/:name/approve` and `/deny` handler branch (daemon.ts
lines 1406-1432): returns the HTTP status, the `error` field of the body (if
any), and the record after the call. -/
def handleApproveDeny (record : AgentRecord) (mode : ApproveMode)
    (optionId : Option String) (now : String) : Nat × Option String × AgentRecord :=
  let decision : PermissionDecision := match mode with
    | .approve => .approve
    | .deny => .deny
  match resolvePendingPermission record decision optionId now with
  | (none, r) => (409, some "no_pending_permissions", r)
  | (some _, r) => (200, none, r)

/-- `BridgeClient.requestPermission` (daemon.ts lines 103-120): stamp
`updatedAt`, force `state = working` and park the request at the tail of
`pendingPermissions`. -/
def requestPermissionEnqueue (record : AgentRecord) (params : PermissionRequest)
    (requestId : Nat) (now : String) : AgentRecord :=
  { record with
    updatedAt := now
    state := .working
    pendingPermissions := record.pendingPermissions ++ [⟨requestId, params, now⟩] }

/-- The spec invariant of claim C2: an idle agent has no pending
permissions. -/
def idlePermissionsInv (r : AgentRecord) : Prop :=
  r.state = .idle → r.pendingPermissions = []

/-- Which racer of `askAgent`'s `Promise.race` settles first, or whether the
prompt rejects. -/
inductive AskOutcome
  | promptWin (stopReason : Option String)
  | timerWin
  | promptError (raw : String)
deriving DecidableEq, Repr

/-- The guarded `finally` clearing of `activeTask` (daemon.ts lines
1241-1248). -/
def clearActiveTask (r : AgentRecord) (activeTask : Option (String × String)) : AgentRecord :=
  match activeTask with
  | none => { r with activeTask := none }
  | some a => if r.activeTask == some a then { r with activeTask := none } else r

/-- The precondition-and-start section of `askAgent` (daemon.ts lines
1185-1196) acting on the agent registry: reject unknown or working agents,
otherwise mark the agent working and reset its per-prompt fields. Returns
the registry (unchanged on rejection) and the thrown error, if any. -/
def askAgentStart (agentsList : List AgentRecord) (name : String) (now : String)
    (activeTask : Option (String × String)) : List AgentRecord × Option String :=
  match agentsList.find? (fun r => r.name == name) with
  | none => (agentsList, some ("Agent not found: " ++ name))
  | some r =>
    if r.state = .working then (agentsList, some ("Agent is busy: " ++ name))
    else
      (agentsList.map (fun x =>
        if x.name == name then
          { x with
            state := .working
            updatedAt := now
            currentText := ""
            stopReason := none
            activeTask := activeTask }
        else x), none)

/-- The completion section of `askAgent` (daemon.ts lines 1200-1249),
applied to the record as it stands when the race settles: the success path,
the 408 timeout path and the classified error path, each followed by the
`finally` block. -/
def askAgentFinish (record : AgentRecord) (timeoutMs : Nat)
    (activeTask : Option (String × String)) (outcome : AskOutcome) (now : String) :
    AgentRecord × Except AskError AskResult :=
  match outcome with
  | .promptWin stopReason =>
    let r := { record with
      state := AgentState.idle
      stopReason := stopReason
      lastText := record.currentText
      updatedAt := now }
    (clearActiveTask r activeTask,
     .ok ⟨record.name, .idle, stopReason, record.currentText⟩)
  | .timerWin =>
    let msg := "ask timeout after " ++ toString timeoutMs ++ "ms"
    let r := { record with
      state := AgentState.idle
      stopReason := some "timeout"
      lastError := some msg
      updatedAt := now }
    (clearActiveTask r activeTask, .error (.http ⟨408, msg⟩))
  | .promptError raw =>
    let r := { record with
      state := AgentState.err
      lastError := some (classifyAskError raw)
      updatedAt := now }
    (clearActiveTask r activeTask, .error (.plain raw))

/-! ## Task and subtask records (daemon.ts lines 62-87)

`terminalPromise`/`resolveTerminal` and `cancelController` are the
event-driven wake-up plumbing; the state they guard is fully captured by the
`state` fields and the `cancelRequested` flag, so they are not part of the
pure record. -/

/-- `TaskSubtaskRecord` (daemon.ts lines 62-76). -/
structure SubRec where
  id : String
  agent : String
  prompt : String
  dependsOn : List String
  state : SubtaskState
  result : Option String
  errMsg : Option String
  createdAt : String
  updatedAt : String
  startedAt : Option String
  completedAt : Option String
deriving DecidableEq, Repr

/-- `TaskRecord` (daemon.ts lines 78-87). -/
structure TaskRec where
  id : String
  name : String
  state : TaskState
  subtasks : List SubRec
  createdAt : String
  updatedAt : String
  cancelRequested : Bool
deriving DecidableEq, Repr

/-- `isSubtaskTerminal` (daemon.ts lines 533-535). -/
def isSubtaskTerminal (state : SubtaskState) : Bool :=
  state == .done || state == .err || state == .cancelled

/-- `isTaskTerminal` (daemon.ts lines 590-592). -/
def isTaskTerminal (state : TaskState) : Bool :=
  state == .done || state == .err || state == .cancelled

/-- `findTaskSubtask` (daemon.ts lines 537-539). -/
def findTaskSubtask (task : TaskRec) (subtaskId : String) : Option SubRec :=
  task.subtasks.find? (fun item => item.id == subtaskId)

/-- `subtask.dependsOn.map(findTaskSubtask).filter(Boolean)` (daemon.ts line
650): the sibling records of the dependencies that exist. -/
def subtaskDeps (task : TaskRec) (subtask : SubRec) : List SubRec :=
  subtask.dependsOn.filterMap (fun depId => findTaskSubtask task depId)

/-- `refreshTaskState` (daemon.ts lines 564-588). -/
def refreshTaskState (task : TaskRec) (now : String) : TaskRec :=
  if task.state = .cancelled then { task with updatedAt := now }
  else if task.subtasks.any (fun i => i.state == .pending || i.state == .running) then
    { task with state := .running, updatedAt := now }
  else if task.subtasks.length > 0 && task.subtasks.all (fun i => i.state == .done) then
    { task with state := .done, updatedAt := now }
  else if task.subtasks.any (fun i => i.state == .err) &&
      task.subtasks.all (fun i => i.state == .done || i.state == .err || i.state == .cancelled) then
    { task with state := .err, updatedAt := now }
  else if task.subtasks.length > 0 && task.subtasks.all (fun i => i.state == .cancelled) then
    { task with state := .cancelled, updatedAt := now }
  else { task with state := .running, updatedAt := now }

/-- In-place mutation of the subtask object with id `subtaskId`, as a map
over the task's subtask list. -/
def setSubtaskIn (task : TaskRec) (subtaskId : String) (f : SubRec → SubRec) : TaskRec :=
  { task with subtasks := task.subtasks.map (fun s => if s.id == subtaskId then f s else s) }

/-- The task has been cancelled as observed by `runSubtask`'s wait loop
(daemon.ts line 641). -/
def taskCancelSignaled (task : TaskRec) : Prop :=
  task.cancelRequested = true ∨ task.state = .cancelled

/-- One wake-up of `runSubtask`'s wait loop for a pending subtask (daemon.ts
lines 640-670): re-check cancellation first, then whether every existing
dependency is terminal; transition to `cancelled`, to `running`, or keep
waiting accordingly. -/
def runSubtaskWake (task : TaskRec) (subtaskId : String) (now : String) : TaskRec :=
  match findTaskSubtask task subtaskId with
  | none => task
  | some subtask =>
    if subtask.state = .pending then
      if task.cancelRequested || task.state == .cancelled then
        refreshTaskState
          (setSubtaskIn task subtaskId (fun s =>
            { s with state := .cancelled, updatedAt := now, completedAt := some now })) now
      else if ((subtaskDeps task subtask).filter
          (fun dep => !isSubtaskTerminal dep.state)).isEmpty then
        { setSubtaskIn task subtaskId (fun s =>
            { s with state := .running, startedAt := some now, updatedAt := now })
          with updatedAt := now }
      else task
    else task

/-! ## Terminal-task eviction (daemon.ts lines 594-624) -/

/-- The fields of a task record `cleanupCompletedTasks` reads, with
`taskUpdatedAtMs` (daemon.ts lines 594-600) already applied: `updatedAtMs`
is the parsed `updatedAt` epoch in milliseconds. -/
structure TaskLite where
  id : String
  state : TaskState
  updatedAtMs : Int
deriving DecidableEq, Repr

/-- The registry after the TTL pass of `cleanupCompletedTasks` (daemon.ts
lines 605-611): every terminal task at least `ttl` old (its `updatedAt` not
after `now - ttl`, the `expiryThreshold`) is deleted. -/
def afterTtlFilter (now ttl : Int) (tasks : List TaskLite) : List TaskLite :=
  tasks.filter (fun t => !(isTaskTerminal t.state && decide (t.updatedAtMs ≤ now - ttl)))

/-- The `remainingTerminal` list of `cleanupCompletedTasks` (daemon.ts lines
613-615): the still-stored terminal tasks sorted by ascending
`updatedAt`. -/
def remainingTerminalSorted (now ttl : Int) (tasks : List TaskLite) : List TaskLite :=
  List.insertionSort (fun a b => a.updatedAtMs ≤ b.updatedAtMs)
    ((afterTtlFilter now ttl tasks).filter (fun t => isTaskTerminal t.state))

instance : IsTotal TaskLite (fun a b => a.updatedAtMs ≤ b.updatedAtMs) :=
  ⟨fun a b => Int.le_total a.updatedAtMs b.updatedAtMs⟩

instance : IsTrans TaskLite (fun a b => a.updatedAtMs ≤ b.updatedAtMs) :=
  ⟨fun _ _ _ hab hbc => le_trans hab hbc⟩

/-- `cleanupCompletedTasks` (daemon.ts lines 602-624) on the task registry in
map insertion order: drop expired terminal tasks, then drop the oldest
remaining terminal tasks while more than `cap` are left. `now` is
`Date.now()`, `ttl` is `TASK_TTL_MS` and `cap` is `MAX_COMPLETED_TASKS`. -/
def cleanupCompletedTasks (now ttl : Int) (cap : Nat) (tasks : List TaskLite) : List TaskLite :=
  let afterTtl := afterTtlFilter now ttl tasks
  let remainingTerminal := remainingTerminalSorted now ttl tasks
  let overflow := remainingTerminal.length - cap
  if overflow = 0 then afterTtl
  else
    let doomedIds := (remainingTerminal.take overflow).map (fun t => t.id)
    afterTtl.filter (fun t => !doomedIds.contains t.id)

/-- Claim C7's property of one eviction run: every expired terminal task is
deleted; running tasks are never deleted; the surviving terminal count is
the unexpired terminal count clipped to the cap; and any unexpired task that
was deleted is no newer than every surviving terminal task. -/
def cleanupClaim (now ttl : Int) (cap : Nat) (tasks : List TaskLite) : Prop :=
  (∀ t ∈ tasks, isTaskTerminal t.state = true → t.updatedAtMs ≤ now - ttl →
    t ∉ cleanupCompletedTasks now ttl cap tasks) ∧
  (∀ t ∈ tasks, t.state = .running → t ∈ cleanupCompletedTasks now ttl cap tasks) ∧
  ((cleanupCompletedTasks now ttl cap tasks).filter
      (fun t => isTaskTerminal t.state)).length =
    min ((tasks.filter (fun t =>
      isTaskTerminal t.state && !decide (t.updatedAtMs ≤ now - ttl))).length) cap ∧
  (∀ t ∈ tasks, t ∉ cleanupCompletedTasks now ttl cap tasks →
    ¬(t.updatedAtMs ≤ now - ttl) →
    ∀ u ∈ cleanupCompletedTasks now ttl cap tasks, isTaskTerminal u.state = true →
      t.updatedAtMs ≤ u.updatedAtMs)

/-! ## Subtask graph validation (daemon.ts lines 725-763)

`validateSubtaskGraph` first rejects unknown and self dependencies, then
runs a DFS with a `visiting`/`visited` colouring that throws on a back
edge. The recursion is modelled with a fuel parameter; `cycleFuel` is shown
large enough that the fuel never runs out (`visit_fuel_sufficient` below). -/

/-- The dependency list of the subtask named `id`, via the `byId` map
(daemon.ts lines 740, 750-755); an id without a subtask has no
dependencies. -/
def depsOf (subs : List SubRec) (id : String) : List String :=
  match subs.find? (fun s => s.id == id) with
  | some s => s.dependsOn
  | none => []

/-- The dependency edge relation of the graph: `Edge subs x y` holds when the
subtask named `x` lists `y` in `dependsOn`. -/
def Edge (subs : List SubRec) (x y : String) : Prop :=
  y ∈ depsOf subs x

/-- A dependency cycle: some id reaches itself along one or more edges. -/
def HasCycle (subs : List SubRec) : Prop :=
  ∃ x, Relation.TransGen (Edge subs) x x

/-- The DFS colouring state: the grey stack (`visiting`, most recent first)
and the black set (`visited`, most recent first). -/
structure VisitSt where
  visiting : List String
  visited : List String
deriving DecidableEq, Repr

/-- Sequentially run `step` over a list, threading the state and stopping at
the first thrown error (the semantics of the `for` loops around `visit`). -/
def visitFold (step : String → VisitSt → Option (Except Unit VisitSt)) :
    List String → VisitSt → Option (Except Unit VisitSt)
  | [], st => some (Except.ok st)
  | d :: rest, st =>
    match step d st with
    | none => none
    | some (Except.error e) => some (Except.error e)
    | some (Except.ok st') => visitFold step rest st'

/-- The recursive `visit` of `validateSubtaskGraph` (daemon.ts lines
742-758). `none` means the fuel ran out; `Except.error ()` is the thrown
"subtask dependency cycle detected". -/
def visit (subs : List SubRec) : Nat → String → VisitSt → Option (Except Unit VisitSt)
  | 0, _, _ => none
  | fuel + 1, id, st =>
    if id ∈ st.visited then some (Except.ok st)
    else if id ∈ st.visiting then some (Except.error ())
    else
      match visitFold (fun d st' => visit subs fuel d st') (depsOf subs id)
          ⟨id :: st.visiting, st.visited⟩ with
      | none => none
      | some (Except.error e) => some (Except.error e)
      | some (Except.ok st') => some (Except.ok ⟨st'.visiting.erase id, id :: st'.visited⟩)

/-- Every id the DFS can ever be called on: the subtask ids and every id
mentioned in a `dependsOn` list. -/
def allIds (subs : List SubRec) : List String :=
  subs.map (fun s => s.id) ++ subs.flatMap (fun s => s.dependsOn)

/-- Fuel that bounds the DFS stack depth strictly. -/
def cycleFuel (subs : List SubRec) : Nat :=
  (allIds subs).length + 1

/-- The inner loop of the first validation pass (daemon.ts lines 728-735):
check each dependency id of the subtask named `sid` for existence and
self-reference. -/
def checkDepList (ids : List String) (sid : String) : List String → Except HttpError Unit
  | [] => .ok ()
  | depId :: rest =>
    if !ids.contains depId then .error ⟨400, "subtask dependency not found: " ++ depId⟩
    else if depId == sid then .error ⟨400, "subtask cannot depend on itself: " ++ sid⟩
    else checkDepList ids sid rest

/-- The outer loop of the first validation pass (daemon.ts lines 727-736). -/
def checkSubtaskDeps (ids : List String) : List SubRec → Except HttpError Unit
  | [] => .ok ()
  | s :: rest =>
    match checkDepList ids s.id s.dependsOn with
    | .error e => .error e
    | .ok () => checkSubtaskDeps ids rest

/-- `validateSubtaskGraph` (daemon.ts lines 725-763). -/
def validateSubtaskGraph (subs : List SubRec) : Except HttpError Unit :=
  let ids := subs.map (fun s => s.id)
  match checkSubtaskDeps ids subs with
  | .error e => .error e
  | .ok () =>
    match visitFold (fun d st => visit subs (cycleFuel subs) d st)
        (subs.map (fun s => s.id)) ⟨[], []⟩ with
    | some (Except.error _) => .error ⟨400, "subtask dependency cycle detected"⟩
    | _ => .ok ()

/-- The first validation pass succeeds: every dependency id names a sibling
subtask and no subtask depends on itself. -/
def depChecksOk (subs : List SubRec) : Bool :=
  subs.all (fun s => s.dependsOn.all (fun d =>
    (subs.map (fun x => x.id)).contains d && d != s.id))

/-- A finished-order list is topologically sorted: every element's
dependencies occur strictly later in the list (the list is newest-first). -/
def Good (subs : List SubRec) : List String → Prop
  | [] => True
  | x :: rest => (∀ y, Edge subs x y → y ∈ rest) ∧ Good subs rest

/-- The grey stack is a chain of dependency edges: each entry is a
dependency of the entry pushed just before it. -/
def StackChain (subs : List SubRec) : List String → Prop
  | [] => True
  | [_] => True
  | a :: b :: rest => Edge subs b a ∧ StackChain subs (b :: rest)

/-- The id now being visited is a dependency of the top of the grey stack. -/
def HeadEdge (subs : List SubRec) (visiting : List String) (id : String) : Prop :=
  ∀ h t, visiting = h :: t → Edge subs h id

/-- Subtask record with only graph-relevant fields populated, used to state
concrete instances. -/
def mkSub (id : String) (deps : List String) : SubRec :=
  ⟨id, "agentA", "prompt", deps, .pending, none, none, "t0", "t0", none, none⟩

/-! ## Task creation (daemon.ts lines 765-839) -/

/-- An element of a raw `dependsOn` array: a JSON string or something else
(dropped by the `typeof` filter). -/
inductive RawDep
  | str (s : String)
  | nonString
deriving DecidableEq, Repr

/-- A raw subtask object of the request body; `none` fields model absent or
non-string values. -/
structure RawSubtask where
  id : Option String
  agent : Option String
  prompt : Option String
  dependsOn : Option (List RawDep)
deriving DecidableEq, Repr

/-- An entry of the raw `subtasks` array: an object or a non-object value. -/
inductive RawSubtaskEntry
  | obj (s : RawSubtask)
  | nonObject
deriving DecidableEq, Repr

/-- The request body of `POST /tasks` as `createTask` inspects it. -/
structure TaskBody where
  name : Option String
  subtasks : Option (List RawSubtaskEntry)
deriving DecidableEq, Repr

/-- The subtask-building `.map` of `createTask` (daemon.ts lines 776-822),
with its per-index validation and the running `usedIds` set. -/
def buildSubtasks (createdAt : String) :
    List RawSubtaskEntry → Nat → List String → Except HttpError (List SubRec)
  | [], _, _ => .ok []
  | .nonObject :: _, idx, _ => .error ⟨400, "invalid subtask at index " ++ toString idx⟩
  | .obj raw :: rest, idx, usedIds =>
    let agent := match raw.agent with
      | some a => jsTrim a
      | none => ""
    let prompt := match raw.prompt with
      | some p => p
      | none => ""
    if agent == "" then .error ⟨400, "subtask agent is required at index " ++ toString idx⟩
    else if prompt == "" then .error ⟨400, "subtask prompt is required at index " ++ toString idx⟩
    else
      let requestedId := match raw.id with
        | some i => jsTrim i
        | none => ""
      let id := if requestedId == "" then "subtask-" ++ toString (idx + 1) else requestedId
      if usedIds.contains id then .error ⟨400, "duplicate subtask id: " ++ id⟩
      else
        let dependsOn := match raw.dependsOn with
          | some items =>
            ((items.filterMap (fun it => match it with
              | .str s => some s
              | .nonString => none)).map jsTrim).filter (fun s => s.length > 0)
          | none => []
        match buildSubtasks createdAt rest (idx + 1) (id :: usedIds) with
        | .error e => .error e
        | .ok subs =>
          .ok ({ id := id, agent := agent, prompt := prompt, dependsOn := dependsOn,
                 state := .pending, result := none, errMsg := none,
                 createdAt := createdAt, updatedAt := createdAt,
                 startedAt := none, completedAt := none } :: subs)

/-- The observable effect of one `createTask` call: its return value or
thrown error, the task registry afterwards, and the id handed to `runTask`
if execution was launched. -/
structure CreateOut where
  result : Except HttpError TaskRec
  tasks : List TaskRec
  launched : Option String
deriving Repr

/-- The `const name` computation of `createTask` (daemon.ts line 766):
trimmed when a string, empty otherwise. -/
def taskNameOf (body : TaskBody) : String :=
  match body.name with
  | some s => jsTrim s
  | none => ""

/-- `createTask` (daemon.ts lines 765-839): validate the body, build the
subtask records, validate the graph, and only then store the task and launch
`runTask`. `newId` stands for `randomUUID()` and `now` for `nowIso()`. -/
def createTask (body : TaskBody) (tasks : List TaskRec) (newId : String) (now : String) :
    CreateOut :=
  if taskNameOf body == "" then ⟨.error ⟨400, "task name is required"⟩, tasks, none⟩
  else
    match body.subtasks with
    | none => ⟨.error ⟨400, "task subtasks are required"⟩, tasks, none⟩
    | some [] => ⟨.error ⟨400, "task subtasks are required"⟩, tasks, none⟩
    | some entries =>
      match buildSubtasks now entries 0 [] with
      | .error e => ⟨.error e, tasks, none⟩
      | .ok subs =>
        match validateSubtaskGraph subs with
        | .error e => ⟨.error e, tasks, none⟩
        | .ok () =>
          let task : TaskRec :=
            { id := newId, name := taskNameOf body, state := .running, subtasks := subs,
              createdAt := now, updatedAt := now, cancelRequested := false }
          ⟨.ok task, tasks ++ [task], some newId⟩

/-! ## Concrete instances used by witnesses and counterexamples -/

/-- An idle agent with an empty permission queue. -/
def agentIdle : AgentRecord :=
  ⟨"a1", .idle, none, "", "", none, [], none, "t0", "t0"⟩

/-- A permission request advertising one allow-kind option. -/
def permReqEx : PermissionRequest :=
  ⟨[⟨"opt-allow", "allow_once"⟩]⟩

/-- `agentIdle` right after `askAgentStart` marked it working. -/
def agentAfterStart : AgentRecord :=
  { agentIdle with state := .working, updatedAt := "t1" }

/-- The agent after a permission was parked during the prompt and the ask
timer then won the race. -/
def agentTimedOut : AgentRecord :=
  (askAgentFinish (requestPermissionEnqueue agentAfterStart permReqEx 1 "t2")
    300000 none .timerWin "t3").1

/-- A task whose cancellation has been requested while its only subtask is
still pending. -/
def taskCancelEx : TaskRec :=
  ⟨"T1", "demo", .running, [mkSub "s1" []], "t0", "t0", true⟩

/-- A one-subtask graph with a self-dependency. -/
def subsSelfLoop : List SubRec := [mkSub "a" ["a"]]

/-- A two-subtask acyclic chain. -/
def subsChain : List SubRec := [mkSub "a" [], mkSub "b" ["a"]]

/-- Tasks exercising both eviction phases: one expired terminal task, one
running task, and two fresh terminal tasks over a cap of 1. -/
def tasksEx : List TaskLite :=
  [⟨"ta", .done, 10⟩, ⟨"tb", .running, 99⟩, ⟨"tc", .done, 80⟩, ⟨"td", .done, 90⟩]

/-! ## General helper lemmas -/

/-- C4: whenever the timer wins the race, `askAgent` raises an `HttpError`
with status 408 and message `ask timeout after <N>ms`, and the agent record
afterwards is `idle` with `stopReason = "timeout"` and that message stored
in `lastError`. -/
theorem askAgent_timeout_spec (record : AgentRecord) (timeoutMs : Nat)
    (activeTask : Option (String × String)) (now : String) :
    (askAgentFinish record timeoutMs activeTask .timerWin now).2 =
      .error (.http ⟨408, "ask timeout after " ++ toString timeoutMs ++ "ms"⟩) ∧
    (askAgentFinish record timeoutMs activeTask .timerWin now).1.state = .idle ∧
    (askAgentFinish record timeoutMs activeTask .timerWin now).1.stopReason = some "timeout" ∧
    (askAgentFinish record timeoutMs activeTask .timerWin now).1.lastError =
      some ("ask timeout after " ++ toString timeoutMs ++ "ms") := by
  unfold askAgentFinish clearActiveTask
  cases activeTask with
  | none => exact ⟨rfl, rfl, rfl, rfl⟩
  | some a =>
    dsimp only
    split
    · exact ⟨rfl, rfl, rfl, rfl⟩
    · exact ⟨rfl, rfl, rfl, rfl⟩

/-! ## Claim C8: approve/deny on an empty queue -/

/-- C8: approve or deny on an agent with an empty `pendingPermissions` queue
returns HTTP 409 with error `no_pending_permissions` and leaves the record
unchanged. -/
theorem approveDeny_emptyQueue (record : AgentRecord) (mode : ApproveMode)
    (optionId : Option String) (now : String) (h : record.pendingPermissions = []) :
    handleApproveDeny record mode optionId now = (409, some "no_pending_permissions", record) := by
  unfold handleApproveDeny resolvePendingPermission
  cases mode <;> simp [h]

/-- Witness for C8 at a concrete idle agent. -/
theorem approveDeny_emptyQueue_witness :
    handleApproveDeny agentIdle .approve none "t1" = (409, some "no_pending_permissions", agentIdle) :=
  approveDeny_emptyQueue agentIdle .approve none "t1" rfl

/-! ## Claim C10: rejected asks mutate nothing -/

/-- C10: when `askAgent` is called for an unknown agent or for an agent that
is already working, it throws and the agent registry — every record with
all its fields — is exactly as before. -/
theorem askAgent_reject_pure (agentsList : List AgentRecord) (name now : String)
    (activeTask : Option (String × String))
    (h : agentsList.find? (fun r => r.name == name) = none ∨
         ∃ r, agentsList.find? (fun r => r.name == name) = some r ∧ r.state = .working) :
    (askAgentStart agentsList name now activeTask).1 = agentsList ∧
    (askAgentStart agentsList name now activeTask).2.isSome = true := by
  unfold askAgentStart
  rcases h with h | ⟨r, hr, hw⟩
  · simp [h]
  · simp [hr, hw]

/-- Witness for C10: asking a missing agent on an empty registry. -/
theorem askAgent_reject_pure_witness :
    (askAgentStart [] "ghost" "t1" none).1 = [] ∧
    (askAgentStart [] "ghost" "t1" none).2.isSome = true :=
  askAgent_reject_pure [] "ghost" "t1" none (Or.inl rfl)

/-! ## Claim C9: task creation is atomic w.r.t. validation -/

/-- C9: whenever `createTask` rejects the request, the task registry is
unchanged and no subtask execution is launched. -/
theorem createTask_atomic (body : TaskBody) (tasks : List TaskRec) (newId now : String)
    (e : HttpError) (h : (createTask body tasks newId now).result = .error e) :
    (createTask body tasks newId now).tasks = tasks ∧
    (createTask body tasks newId now).launched = none := by
  revert h
  unfold createTask
  repeat' split
  all_goals intro h
  all_goals first
    | exact ⟨rfl, rfl⟩
    | exact Except.noConfusion h

/-- Witness for C9: a body with no name is rejected and stores nothing. -/
theorem createTask_atomic_witness :
    (createTask ⟨none, none⟩ [] "id1" "t1").tasks = [] ∧
    (createTask ⟨none, none⟩ [] "id1" "t1").launched = none :=
  createTask_atomic ⟨none, none⟩ [] "id1" "t1" ⟨400, "task name is required"⟩ rfl

/-! ## Claim C2: the idle/pendingPermissions invariant is broken by the
ask-timeout path -/

/-- C2 (code bug): starting from an idle agent, an ask that parks a
permission request and then times out leaves the record with `state = idle`
and a non-empty `pendingPermissions` queue — the path daemon.ts lines
1223-1228 takes never drains the queue, violating the invariant the spec
states for every observable point. -/
theorem askTimeout_violates_idle_inv :
    (askAgentStart [agentIdle] "a1" "t1" none).1 = [agentAfterStart] ∧
    agentTimedOut.state = .idle ∧
    agentTimedOut.pendingPermissions = [⟨1, permReqEx, "t2"⟩] ∧
    ¬ idlePermissionsInv agentTimedOut := by
  refine ⟨by decide, by decide, by decide, ?_⟩
  intro hinv
  have := hinv (by decide)
  simp [agentTimedOut, askAgentFinish, clearActiveTask, requestPermissionEnqueue] at this

/-! ## Claim C5: option selection by approve -/

/-- A standalone match of a non-empty pattern only happens inside the
string. -/
theorem standalone_lt (cs : List Char) (i : Nat) (pat : List Char) (hp : pat ≠ [])
    (h : standaloneAt cs i pat = true) : i < cs.length := by
  by_contra hge
  push_neg at hge
  have hdrop : cs.drop i = [] := List.drop_eq_nil_of_le hge
  unfold standaloneAt at h
  rw [hdrop] at h
  simp at h
  exact hp h.1.1

/-- Only one of the four status codes can match standalone at a given
position. -/
theorem standalone_unique (cs : List Char) (i : Nat) {c c' : Nat}
    (hc : c ∈ [401, 403, 429, 503]) (hc' : c' ∈ [401, 403, 429, 503])
    (h : standaloneAt cs i (digitsOf c) = true)
    (h' : standaloneAt cs i (digitsOf c') = true) : c = c' := by
  have t1 : (cs.drop i).take (digitsOf c).length = digitsOf c := by
    have hx := h
    unfold standaloneAt at hx
    simp only [Bool.and_eq_true, beq_iff_eq] at hx
    exact hx.1.1
  have t2 : (cs.drop i).take (digitsOf c').length = digitsOf c' := by
    have hx := h'
    unfold standaloneAt at hx
    simp only [Bool.and_eq_true, beq_iff_eq] at hx
    exact hx.1.1
  have hcc : c = 401 ∨ c = 403 ∨ c = 429 ∨ c = 503 := by simpa using hc
  have hcc' : c' = 401 ∨ c' = 403 ∨ c' = 429 ∨ c' = 503 := by simpa using hc'
  have hdig : digitsOf c = digitsOf c' := by
    have hl : (digitsOf c).length = (digitsOf c').length := by
      rcases hcc with rfl | rfl | rfl | rfl <;> rcases hcc' with rfl | rfl | rfl | rfl <;> rfl
    rw [← t1, ← t2, hl]
  rcases hcc with rfl | rfl | rfl | rfl <;> rcases hcc' with rfl | rfl | rfl | rfl <;>
    first
      | rfl
      | (exfalso; simp [digitsOf] at hdig)

/-- If one of the four codes matches standalone at `i`, `codeMatchAt`
reports exactly that code. -/
theorem codeMatchAt_of_standalone (cs : List Char) (i : Nat) {c : Nat}
    (hc : c ∈ [401, 403, 429, 503]) (h : standaloneAt cs i (digitsOf c) = true) :
    codeMatchAt cs i = some c := by
  have huniq : ∀ c', c' ∈ ([401, 403, 429, 503] : List Nat) →
      standaloneAt cs i (digitsOf c') = true → c' = c := by
    intro c' hmem hm
    exact standalone_unique cs i hmem hc hm h
  have hcc : c = 401 ∨ c = 403 ∨ c = 429 ∨ c = 503 := by simpa using hc
  unfold codeMatchAt
  rcases hcc with rfl | rfl | rfl | rfl
  · simp [h]
  · have h401 : standaloneAt cs i (digitsOf 401) = false := by
      by_contra hne
      have := huniq 401 (by simp) (by simpa using hne)
      simp at this
    simp [h, h401]
  · have h401 : standaloneAt cs i (digitsOf 401) = false := by
      by_contra hne
      have := huniq 401 (by simp) (by simpa using hne)
      simp at this
    have h403 : standaloneAt cs i (digitsOf 403) = false := by
      by_contra hne
      have := huniq 403 (by simp) (by simpa using hne)
      simp at this
    simp [h, h401, h403]
  · have h401 : standaloneAt cs i (digitsOf 401) = false := by
      by_contra hne
      have := huniq 401 (by simp) (by simpa using hne)
      simp at this
    have h403 : standaloneAt cs i (digitsOf 403) = false := by
      by_contra hne
      have := huniq 403 (by simp) (by simpa using hne)
      simp at this
    have h429 : standaloneAt cs i (digitsOf 429) = false := by
      by_contra hne
      have := huniq 429 (by simp) (by simpa using hne)
      simp at this
    simp [h, h401, h403, h429]

/-- If none of the four codes matches standalone at `i`, `codeMatchAt`
reports nothing. -/
theorem codeMatchAt_of_none (cs : List Char) (i : Nat)
    (h : ∀ c ∈ ([401, 403, 429, 503] : List Nat), standaloneAt cs i (digitsOf c) = false) :
    codeMatchAt cs i = none := by
  unfold codeMatchAt
  simp [h 401 (by simp), h 403 (by simp), h 429 (by simp), h 503 (by simp)]

/-- The scan returns the code found at the leftmost matching position. -/
theorem scanIdx_finds (cs : List Char) (c : Nat) :
    ∀ rem i0 i, i0 ≤ i → i < i0 + rem → codeMatchAt cs i = some c →
      (∀ j, i0 ≤ j → j < i → codeMatchAt cs j = none) → scanIdx cs i0 rem = some c := by
  intro rem
  induction rem with
  | zero =>
    intro i0 i h1 h2 _ _
    exact absurd h2 (by omega)
  | succ n ih =>
    intro i0 i h1 h2 h3 h4
    rcases Nat.eq_or_lt_of_le h1 with rfl | hlt
    · simp [scanIdx, h3]
    · have h0 : codeMatchAt cs i0 = none := h4 i0 le_rfl hlt
      simp only [scanIdx, h0]
      exact ih (i0 + 1) i hlt (by omega) h3 (fun j hj1 hj2 => h4 j (by omega) hj2)

/-- The scan finds nothing when no position matches. -/
theorem scanIdx_finds_none (cs : List Char) (h : ∀ j, codeMatchAt cs j = none) :
    ∀ rem i0, scanIdx cs i0 rem = none := by
  intro rem
  induction rem with
  | zero => intro i0; rfl
  | succ n ih => intro i0; simp only [scanIdx, h i0]; exact ih (i0 + 1)

/-- C3 (amended): `classifyAskError` keys on the *leftmost* standalone
occurrence of any of 401, 403, 429, 503 in the message (the regex
semantics), mapping 401/403 to the key message, 429 to the rate message and
503 to the availability message; the `ECONNREFUSED`, `ENOTFOUND` and
raw-message rules apply, in that order, only when no status code occurs
standalone. -/
theorem classifyAskError_first_match (m : String) :
    (∀ i code, code ∈ ([401, 403, 429, 503] : List Nat) →
      standaloneAt m.data i (digitsOf code) = true →
      (∀ j, j < i → ∀ c ∈ ([401, 403, 429, 503] : List Nat),
        standaloneAt m.data j (digitsOf c) = false) →
      classifyAskError m = statusMessage code) ∧
    ((∀ i, ∀ c ∈ ([401, 403, 429, 503] : List Nat),
        standaloneAt m.data i (digitsOf c) = false) →
      (containsSub m.data "ECONNREFUSED".data = true →
        classifyAskError m = "Connection refused. Check base URL.") ∧
      (containsSub m.data "ECONNREFUSED".data = false →
        containsSub m.data "ENOTFOUND".data = true →
        classifyAskError m = "DNS resolution failed. Check network.") ∧
      (containsSub m.data "ECONNREFUSED".data = false →
        containsSub m.data "ENOTFOUND".data = false → classifyAskError m = m)) := by
  constructor
  · intro i code hmem hstand hmin
    have hpatne : digitsOf code ≠ [] := by
      have : code = 401 ∨ code = 403 ∨ code = 429 ∨ code = 503 := by simpa using hmem
      rcases this with rfl | rfl | rfl | rfl <;> simp [digitsOf]
    have hi : i < m.data.length := standalone_lt m.data i (digitsOf code) hpatne hstand
    have hcm : codeMatchAt m.data i = some code := codeMatchAt_of_standalone m.data i hmem hstand
    have hnone : ∀ j, 0 ≤ j → j < i → codeMatchAt m.data j = none := by
      intro j _ hj
      exact codeMatchAt_of_none m.data j (fun c hc => hmin j hj c hc)
    have hscan : firstStatusMatch m.data = some code := by
      unfold firstStatusMatch
      exact scanIdx_finds m.data code m.data.length 0 i (Nat.zero_le i) (by omega) hcm hnone
    have : code = 401 ∨ code = 403 ∨ code = 429 ∨ code = 503 := by simpa using hmem
    rcases this with rfl | rfl | rfl | rfl <;>
      simp [classifyAskError, hscan, statusMessage]
  · intro hall
    have hnone : ∀ j, codeMatchAt m.data j = none := by
      intro j
      exact codeMatchAt_of_none m.data j (fun c hc => hall j c hc)
    have hscan : firstStatusMatch m.data = none := by
      unfold firstStatusMatch
      exact scanIdx_finds_none m.data hnone m.data.length 0
    refine ⟨?_, ?_, ?_⟩
    · intro hconn
      simp [classifyAskError, hscan, hconn]
    · intro hconn hdns
      simp [classifyAskError, hscan, hconn, hdns]
    · intro hconn hdns
      simp [classifyAskError, hscan, hconn, hdns]

/-- Witness for C3 (amended): in `err 429 here` the leftmost standalone code
is 429 at position 4. -/
theorem classifyAskError_first_match_witness :
    classifyAskError "err 429 here" = "Rate limited. Check proxy quota." :=
  (classifyAskError_first_match "err 429 here").1 4 429 (by decide) (by decide)
    (by decide)

/-- Counterexample to C3 as stated: on `429 then 401` the claim's ordered
rules give the key message (a standalone 401 is present), but the code keys
on the leftmost match, which is 429, and answers the rate message. -/
theorem classifyAskError_order_counterexample :
    classifyClaimRules "429 then 401" = "API key invalid or expired. Check your key." ∧
    classifyAskError "429 then 401" = "Rate limited. Check proxy quota." ∧
    classifyAskError "429 then 401" ≠ classifyClaimRules "429 then 401" := by
  refine ⟨by decide, by decide, by decide⟩

/-! ## Claim C1: a subtask leaves `pending` only legitimately -/

/-- `refreshTaskState` only recomputes task-level fields; the subtask list is
untouched. -/
theorem refreshTaskState_subtasks (t : TaskRec) (now : String) :
    (refreshTaskState t now).subtasks = t.subtasks := by
  unfold refreshTaskState
  repeat' split
  all_goals rfl

/-- Finding by id after an id-preserving in-place update finds the updated
record. -/
theorem find?_map_ite (l : List SubRec) (sid : String) (f : SubRec → SubRec)
    (hf : ∀ s, (f s).id = s.id) :
    (l.map (fun s => if s.id == sid then f s else s)).find? (fun s => s.id == sid) =
      (l.find? (fun s => s.id == sid)).map f := by
  induction l with
  | nil => rfl
  | cons a rest ih =>
    simp only [List.map_cons]
    by_cases h : (a.id == sid) = true
    · have hfa : ((f a).id == sid) = true := by rw [hf a]; exact h
      rw [if_pos h]
      simp only [List.find?, hfa, h, Option.map_some']
    · have h1 : (a.id == sid) = false := by simpa using h
      rw [if_neg h]
      simp only [List.find?, h1]
      exact ih

/-- Composite of the two lemmas above: looking the subtask up again after an
id-preserving in-place update (and a task-level refresh) yields the updated
record. -/
theorem findTaskSubtask_setSubtaskIn (t : TaskRec) (sid : String) (f : SubRec → SubRec)
    (hf : ∀ s, (f s).id = s.id) :
    findTaskSubtask (setSubtaskIn t sid f) sid = (findTaskSubtask t sid).map f := by
  unfold findTaskSubtask setSubtaskIn
  dsimp only
  exact find?_map_ite t.subtasks sid f hf

/-- C1: a pending subtask that is no longer pending after a wake-up of
`runSubtask`'s wait loop either moved to `cancelled` because the task was
cancelled (never to `running`), or moved to `running` with the task not
cancelled and every dependency subtask terminal. -/
theorem runSubtask_leaves_pending (t : TaskRec) (sid now : String) (s s' : SubRec)
    (hs : findTaskSubtask t sid = some s) (hp : s.state = .pending)
    (hs' : findTaskSubtask (runSubtaskWake t sid now) sid = some s')
    (hne : s'.state ≠ .pending) :
    (taskCancelSignaled t ∧ s'.state = .cancelled ∧ s'.state ≠ .running) ∨
    (¬ taskCancelSignaled t ∧ s'.state = .running ∧
      ∀ d ∈ subtaskDeps t s, isSubtaskTerminal d.state = true) := by
  unfold runSubtaskWake at hs'
  simp only [hs, hp, if_true] at hs'
  by_cases hc : (t.cancelRequested || t.state == .cancelled) = true
  · left
    rw [if_pos hc] at hs'
    have hsig : taskCancelSignaled t := by
      have h2 : t.cancelRequested = true ∨ t.state = TaskState.cancelled := by simpa using hc
      exact h2.elim Or.inl Or.inr
    have houter :
        findTaskSubtask
          (refreshTaskState (setSubtaskIn t sid (fun x =>
            { x with state := .cancelled, updatedAt := now, completedAt := some now })) now) sid =
        findTaskSubtask (setSubtaskIn t sid (fun x =>
          { x with state := .cancelled, updatedAt := now, completedAt := some now })) sid := by
      unfold findTaskSubtask
      rw [refreshTaskState_subtasks]
    rw [houter, findTaskSubtask_setSubtaskIn t sid (fun x =>
      { x with state := .cancelled, updatedAt := now, completedAt := some now })
      (fun x => rfl), hs] at hs'
    simp only [Option.map_some'] at hs'
    obtain rfl : _ = s' := by injection hs'
    exact ⟨hsig, rfl, by simp⟩
  · rw [if_neg hc] at hs'
    have hnsig : ¬ taskCancelSignaled t := by
      intro hsig
      apply hc
      rcases hsig with h | h
      · simp [h]
      · simp [h]
    by_cases hd :
        ((subtaskDeps t s).filter (fun dep => !isSubtaskTerminal dep.state)).isEmpty = true
    · right
      rw [if_pos hd] at hs'
      have houter :
          findTaskSubtask
            ({ setSubtaskIn t sid (fun x =>
                { x with state := .running, startedAt := some now, updatedAt := now })
              with updatedAt := now }) sid =
          findTaskSubtask (setSubtaskIn t sid (fun x =>
            { x with state := .running, startedAt := some now, updatedAt := now })) sid := rfl
      rw [houter, findTaskSubtask_setSubtaskIn t sid (fun x =>
        { x with state := .running, startedAt := some now, updatedAt := now })
        (fun x => rfl), hs] at hs'
      simp only [Option.map_some'] at hs'
      obtain rfl : _ = s' := by injection hs'
      refine ⟨hnsig, rfl, ?_⟩
      intro d hd'
      have hfil := List.isEmpty_iff.mp hd
      have hnot : ∀ x ∈ subtaskDeps t s, ¬ (!isSubtaskTerminal x.state) = true := by
        intro x hx hcontra
        have hmem : x ∈ (subtaskDeps t s).filter (fun dep => !isSubtaskTerminal dep.state) :=
          List.mem_filter.mpr ⟨hx, hcontra⟩
        rw [hfil] at hmem
        exact absurd hmem (List.not_mem_nil x)
      have hx := hnot d hd'
      simpa using hx
    · rw [if_neg hd, hs] at hs'
      obtain rfl : s = s' := by injection hs'
      exact absurd hp hne

/-- Witness for C1: waking the pending subtask of a cancel-requested task
moves it straight to `cancelled`. -/
theorem runSubtask_leaves_pending_witness :
    (taskCancelSignaled taskCancelEx ∧
      (⟨"s1", "agentA", "prompt", [], .cancelled, none, none, "t0", "t1", none,
        some "t1"⟩ : SubRec).state = .cancelled ∧
      (⟨"s1", "agentA", "prompt", [], .cancelled, none, none, "t0", "t1", none,
        some "t1"⟩ : SubRec).state ≠ .running) ∨
    (¬ taskCancelSignaled taskCancelEx ∧
      (⟨"s1", "agentA", "prompt", [], .cancelled, none, none, "t0", "t1", none,
        some "t1"⟩ : SubRec).state = .running ∧
      ∀ d ∈ subtaskDeps taskCancelEx (mkSub "s1" []), isSubtaskTerminal d.state = true) :=
  runSubtask_leaves_pending taskCancelEx "s1" "t1" (mkSub "s1" [])
    ⟨"s1", "agentA", "prompt", [], .cancelled, none, none, "t0", "t1", none, some "t1"⟩
    (by decide) (by decide) (by decide) (by decide)

/-! ## Claim C7: terminal-task eviction -/

/-- C7: one run of `cleanupCompletedTasks` deletes every expired terminal
task, never deletes a running task, clips the surviving terminal count to
the unexpired terminal count or the cap (whichever is smaller), and any
unexpired task it deletes in the capacity phase is no newer (by `updatedAt`)
than every surviving terminal task. -/
theorem cleanupCompletedTasks_spec (now ttl : Int) (cap : Nat) (tasks : List TaskLite)
    (hnd : (tasks.map (fun t => t.id)).Nodup) : cleanupClaim now ttl cap tasks := by
  have htasksnd : tasks.Nodup := List.Nodup.of_map _ hnd
  have hinj : ∀ x ∈ tasks, ∀ y ∈ tasks, x.id = y.id → x = y := by
    intro x hx y hy
    exact fun h => List.inj_on_of_nodup_map hnd hx hy h
  unfold cleanupClaim
  have hout : cleanupCompletedTasks now ttl cap tasks =
      if (remainingTerminalSorted now ttl tasks).length - cap = 0 then
        afterTtlFilter now ttl tasks
      else (afterTtlFilter now ttl tasks).filter (fun t =>
        !(((remainingTerminalSorted now ttl tasks).take
            ((remainingTerminalSorted now ttl tasks).length - cap)).map
          (fun t => t.id)).contains t.id) := rfl
  rw [hout]
  set A := afterTtlFilter now ttl tasks with hA
  set S := remainingTerminalSorted now ttl tasks with hS
  set R := A.filter (fun t => isTaskTerminal t.state) with hR
  have hSR : List.Perm S R := by
    rw [hS, hR, hA]
    unfold remainingTerminalSorted
    exact List.perm_insertionSort _ _
  have hsorted : List.Pairwise (fun a b : TaskLite => a.updatedAtMs ≤ b.updatedAtMs) S := by
    rw [hS]
    unfold remainingTerminalSorted
    exact List.sorted_insertionSort _ _
  have hAsub : ∀ t ∈ A, t ∈ tasks := by
    intro t ht
    rw [hA] at ht
    exact List.mem_of_mem_filter ht
  have hRsub : ∀ t ∈ R, t ∈ A := by
    intro t ht
    rw [hR] at ht
    exact List.mem_of_mem_filter ht
  have hRnd : R.Nodup := by
    rw [hR, hA]
    unfold afterTtlFilter
    exact (List.filter_sublist _).nodup ((List.filter_sublist _).nodup htasksnd)
  have hSnd : S.Nodup := hSR.nodup_iff.mpr hRnd
  have hmemA : ∀ t, t ∈ A ↔ (t ∈ tasks ∧
      (!(isTaskTerminal t.state && decide (t.updatedAtMs ≤ now - ttl))) = true) := by
    intro t
    rw [hA]
    unfold afterTtlFilter
    exact List.mem_filter
  have hmemR : ∀ t, t ∈ R ↔ (t ∈ A ∧ isTaskTerminal t.state = true) := by
    intro t
    rw [hR]
    exact List.mem_filter
  have hfilter_eq : R = tasks.filter (fun t =>
      isTaskTerminal t.state && !decide (t.updatedAtMs ≤ now - ttl)) := by
    rw [hR, hA]
    unfold afterTtlFilter
    rw [List.filter_filter]
    apply List.filter_congr
    intro t _
    cases h1 : isTaskTerminal t.state <;>
      cases h2 : decide (t.updatedAtMs ≤ now - ttl) <;> simp [h1, h2]
  have hAmem_of : ∀ t ∈ tasks, ¬(isTaskTerminal t.state = true ∧ t.updatedAtMs ≤ now - ttl) →
      t ∈ A := by
    intro t ht hcond
    refine (hmemA t).mpr ⟨ht, ?_⟩
    cases h1 : isTaskTerminal t.state
    · simp
    · have hnle : ¬ t.updatedAtMs ≤ now - ttl := fun hle => hcond ⟨h1, hle⟩
      simp [hnle]
  by_cases hov : S.length - cap = 0
  · rw [if_pos hov]
    refine ⟨?_, ?_, ?_, ?_⟩
    · intro t ht hterm hexp hmem
      have hcond := ((hmemA t).mp hmem).2
      rw [hterm] at hcond
      simp [hexp] at hcond
    · intro t ht hrun
      refine (hmemA t).mpr ⟨ht, ?_⟩
      have hterm : isTaskTerminal t.state = false := by rw [hrun]; rfl
      simp [hterm]
    · have hlen : R.length ≤ cap := by
        have hl := hSR.length_eq
        omega
      rw [← hR, ← hfilter_eq]
      exact (Nat.min_eq_left hlen).symm
    · intro t ht hmem hexp
      exact absurd (hAmem_of t ht (fun hc => hexp hc.2)) hmem
  · rw [if_neg hov]
    set n := S.length - cap with hn
    set D := (S.take n).map (fun t => t.id) with hD
    have notnot : ∀ b : Bool, ¬((!b) = true) → b = true := by decide
    have hov' : cap < S.length := by omega
    have htake_drop : S.take n ++ S.drop n = S := List.take_append_drop n S
    have hpairs : ∀ x ∈ S.take n, ∀ y ∈ S.drop n, x.updatedAtMs ≤ y.updatedAtMs := by
      have hp : List.Pairwise (fun a b : TaskLite => a.updatedAtMs ≤ b.updatedAtMs)
          (S.take n ++ S.drop n) := by
        rw [htake_drop]
        exact hsorted
      exact (List.pairwise_append.mp hp).2.2
    have hdisj : ∀ x ∈ S.take n, x ∉ S.drop n := by
      have hnod : (S.take n ++ S.drop n).Nodup := by
        rw [htake_drop]
        exact hSnd
      have hd := (List.nodup_append.mp hnod).2.2
      exact fun x hx hx' => hd hx hx'
    have hcont : ∀ (l : List String) (x : String), l.contains x = true ↔ x ∈ l := by
      intro l x
      exact List.elem_iff
    have hid_take : ∀ t ∈ tasks, t.id ∈ D → t ∈ S.take n := by
      intro t ht hidm
      rw [hD] at hidm
      obtain ⟨w, hw, hwid⟩ := List.mem_map.mp hidm
      have hwS : w ∈ S := List.take_subset _ S hw
      have hwtasks : w ∈ tasks := hAsub _ (hRsub _ (hSR.mem_iff.mp hwS))
      have heq : w = t := hinj w hwtasks t ht hwid
      exact heq ▸ hw
    refine ⟨?_, ?_, ?_, ?_⟩
    · intro t ht hterm hexp hmem
      have hAm : t ∈ A := List.mem_of_mem_filter hmem
      have hcond := ((hmemA t).mp hAm).2
      rw [hterm] at hcond
      simp [hexp] at hcond
    · intro t ht hrun
      have htermf : isTaskTerminal t.state = false := by rw [hrun]; rfl
      have hAm : t ∈ A := (hmemA t).mpr ⟨ht, by simp [htermf]⟩
      refine List.mem_filter.mpr ⟨hAm, ?_⟩
      show (!D.contains t.id) = true
      cases hcase : D.contains t.id with
      | false => rfl
      | true =>
        exfalso
        have htk : t ∈ S.take n := hid_take t ht ((hcont _ _).mp hcase)
        have htS : t ∈ S := List.take_subset _ S htk
        have htR : t ∈ R := hSR.mem_iff.mp htS
        have hterm := ((hmemR t).mp htR).2
        rw [htermf] at hterm
        simp at hterm
    · have hcomm : ((A.filter (fun t => !D.contains t.id)).filter
            (fun t => isTaskTerminal t.state)) =
          R.filter (fun t => !D.contains t.id) := by
        rw [hR]
        rw [List.filter_filter, List.filter_filter]
        apply List.filter_congr
        intro t _
        cases h1 : isTaskTerminal t.state <;> cases h2 : D.contains t.id <;> simp [h1, h2]
      rw [hcomm]
      have hpermf : List.Perm
          (R.filter (fun t => !D.contains t.id))
          (S.filter (fun t => !D.contains t.id)) :=
        (hSR.filter _).symm
      have hSf : S.filter (fun t => !D.contains t.id) = S.drop n := by
        conv_lhs => rw [← htake_drop]
        rw [List.filter_append]
        have h1 : (S.take n).filter (fun t => !D.contains t.id) = [] := by
          rw [List.filter_eq_nil_iff]
          intro u hu hq
          have hq' : (!D.contains u.id) = true := hq
          have hm : u.id ∈ D := by
            rw [hD]
            exact List.mem_map_of_mem _ hu
          have hcm := (hcont _ _).mpr hm
          rw [hcm] at hq'
          simp at hq'
        have h2 : (S.drop n).filter (fun t => !D.contains t.id) = S.drop n := by
          rw [List.filter_eq_self]
          intro u hu
          show (!D.contains u.id) = true
          cases hcase : D.contains u.id with
          | false => rfl
          | true =>
            exfalso
            have huS : u ∈ S := List.drop_subset _ S hu
            have hutasks : u ∈ tasks := hAsub _ (hRsub _ (hSR.mem_iff.mp huS))
            have hutk : u ∈ S.take n := hid_take u hutasks ((hcont _ _).mp hcase)
            exact hdisj u hutk hu
        rw [h1, h2, List.nil_append]
      have hlen1 : (R.filter (fun t => !D.contains t.id)).length = S.length - n := by
        rw [hpermf.length_eq, hSf, List.length_drop]
      rw [hlen1, ← hfilter_eq]
      have hls : S.length = R.length := hSR.length_eq
      have hcap : S.length - n = cap := by omega
      rw [hcap]
      have hle : cap ≤ R.length := by omega
      exact (Nat.min_eq_right hle).symm
    · intro t ht hmem hexp u hu huterm
      have hAm : t ∈ A := hAmem_of t ht (fun hc => hexp hc.2)
      have hcm : D.contains t.id = true := by
        apply notnot
        intro hq
        exact hmem (List.mem_filter.mpr ⟨hAm, hq⟩)
      have htk : t ∈ S.take n := hid_take t ht ((hcont _ _).mp hcm)
      have hAu : u ∈ A := List.mem_of_mem_filter hu
      have hndu : (!D.contains u.id) = true := (List.mem_filter.mp hu).2
      have huR : u ∈ R := (hmemR u).mpr ⟨hAu, huterm⟩
      have huS : u ∈ S := hSR.mem_iff.mpr huR
      have hu_td : u ∈ S.take n ++ S.drop n := by
        rw [htake_drop]
        exact huS
      rcases List.mem_append.mp hu_td with hutk | hudr
      · exfalso
        have hm : u.id ∈ D := by
          rw [hD]
          exact List.mem_map_of_mem _ hutk
        have hcmu := (hcont _ _).mpr hm
        rw [hcmu] at hndu
        simp at hndu
      · exact hpairs t htk u hudr

/-- Witness for C7: a registry with one expired terminal task, one running
task and two fresh terminal tasks over a cap of one. -/
theorem cleanupCompletedTasks_spec_witness : cleanupClaim 100 50 1 tasksEx :=
  cleanupCompletedTasks_spec 100 50 1 tasksEx (by decide)

/-! ## Claim C6: DFS cycle detection

The correctness argument: a successful `visit` restores the grey stack,
grows the black list into a topological order (`Good`), and keeps it
duplicate-free; an error is only thrown on a back edge, which closes a
cycle along the grey stack; and the chosen fuel strictly bounds the stack
depth, so the fuel never runs out. -/

/-- A successful `visit` restores `visiting`, only grows `visited` (with the
visited id included and nothing that was grey added), and preserves the
`Good` topological-order invariant and duplicate-freeness of `visited`. -/
theorem visit_ok (subs : List SubRec) : ∀ fuel id st st',
    visit subs fuel id st = some (Except.ok st') →
    st'.visiting = st.visiting ∧
    (∀ x ∈ st.visited, x ∈ st'.visited) ∧
    id ∈ st'.visited ∧
    (∀ x ∈ st'.visited, x ∈ st.visited ∨ x ∉ st.visiting) ∧
    (Good subs st.visited → st.visited.Nodup → Good subs st'.visited ∧ st'.visited.Nodup) := by
  intro fuel
  induction fuel with
  | zero =>
    intro id st st' h
    exact absurd h (by simp [visit])
  | succ m ih =>
    have fold_ok : ∀ l st st',
        visitFold (fun d s => visit subs m d s) l st = some (Except.ok st') →
        st'.visiting = st.visiting ∧
        (∀ x ∈ st.visited, x ∈ st'.visited) ∧
        (∀ d ∈ l, d ∈ st'.visited) ∧
        (∀ x ∈ st'.visited, x ∈ st.visited ∨ x ∉ st.visiting) ∧
        (Good subs st.visited → st.visited.Nodup →
          Good subs st'.visited ∧ st'.visited.Nodup) := by
      intro l
      induction l with
      | nil =>
        intro st st' h
        obtain rfl : st = st' := by simpa [visitFold] using h
        exact ⟨rfl, fun x hx => hx, by simp, fun x hx => Or.inl hx, fun g n => ⟨g, n⟩⟩
      | cons d rest ihl =>
        intro st st' h
        unfold visitFold at h
        cases hstep : visit subs m d st with
        | none => rw [hstep] at h; exact absurd h (by simp)
        | some r =>
          cases r with
          | error e => rw [hstep] at h; exact absurd h (by simp)
          | ok st1 =>
            rw [hstep] at h
            obtain ⟨hv1, hm1, hd1, hnew1, hg1⟩ := ih d st st1 hstep
            obtain ⟨hv2, hm2, hd2, hnew2, hg2⟩ := ihl st1 st' h
            refine ⟨hv2.trans hv1, fun x hx => hm2 x (hm1 x hx), ?_, ?_, ?_⟩
            · intro d' hd'
              rcases List.mem_cons.mp hd' with rfl | hd''
              · exact hm2 d' hd1
              · exact hd2 d' hd''
            · intro x hx
              rcases hnew2 x hx with hx1 | hx1
              · exact hnew1 x hx1
              · rw [hv1] at hx1
                exact Or.inr hx1
            · intro g n
              obtain ⟨g1, n1⟩ := hg1 g n
              exact hg2 g1 n1
    intro id st st' h
    unfold visit at h
    by_cases hv : id ∈ st.visited
    · rw [if_pos hv] at h
      obtain rfl : st = st' := by simpa using h
      exact ⟨rfl, fun x hx => hx, hv, fun x hx => Or.inl hx, fun g n => ⟨g, n⟩⟩
    · rw [if_neg hv] at h
      by_cases hvg : id ∈ st.visiting
      · rw [if_pos hvg] at h
        exact absurd h (by simp)
      · rw [if_neg hvg] at h
        cases hfold : visitFold (fun d s => visit subs m d s) (depsOf subs id)
            ⟨id :: st.visiting, st.visited⟩ with
        | none => rw [hfold] at h; exact absurd h (by simp)
        | some r =>
          cases r with
          | error e => rw [hfold] at h; exact absurd h (by simp)
          | ok stM =>
            rw [hfold] at h
            obtain rfl : (⟨stM.visiting.erase id, id :: stM.visited⟩ : VisitSt) = st' := by
              simpa using h
            obtain ⟨hv1, hm1, hdeps, hnew1, hg1⟩ :=
              fold_ok (depsOf subs id) ⟨id :: st.visiting, st.visited⟩ stM hfold
            refine ⟨?_, ?_, ?_, ?_, ?_⟩
            · show stM.visiting.erase id = st.visiting
              rw [hv1]
              exact List.erase_cons_head id st.visiting
            · intro x hx
              exact List.mem_cons_of_mem _ (hm1 x hx)
            · exact List.mem_cons_self _ _
            · intro x hx
              rcases List.mem_cons.mp hx with rfl | hx1
              · exact Or.inr hvg
              · rcases hnew1 x hx1 with hx2 | hx2
                · exact Or.inl hx2
                · exact Or.inr (fun hmem => hx2 (List.mem_cons_of_mem _ hmem))
            · intro g n
              obtain ⟨gM, nM⟩ := hg1 g n
              constructor
              · show Good subs (id :: stM.visited)
                exact ⟨fun y hy => hdeps y hy, gM⟩
              · show (id :: stM.visited).Nodup
                refine List.nodup_cons.mpr ⟨?_, nM⟩
                intro hmem
                rcases hnew1 id hmem with hid | hid
                · exact hv hid
                · exact hid (List.mem_cons_self _ _)

/-- Walking the grey stack from any of its members up to its newest entry
follows dependency edges. -/
theorem chain_reaches (subs : List SubRec) : ∀ (pre : List String) (id : String)
    (post : List String) (h : String) (t : List String),
    StackChain subs (pre ++ id :: post) → (pre ++ id :: post) = h :: t →
    Relation.ReflTransGen (Edge subs) id h := by
  intro pre
  induction pre with
  | nil =>
    intro id post h t _ heq
    obtain rfl : id = h := by simpa using congrArg (fun l => l.headD "") heq
    exact Relation.ReflTransGen.refl
  | cons a pre' ih =>
    intro id post h t hch heq
    have hah : a = h := by simpa using congrArg (fun l => l.headD "") heq
    subst hah
    cases hrest : pre' ++ id :: post with
    | nil => exact absurd hrest (by simp)
    | cons b rest' =>
      have hch' : Edge subs b a ∧ StackChain subs (b :: rest') := by
        have hx : StackChain subs (a :: b :: rest') := by
          rw [← hrest]
          simpa using hch
        simpa [StackChain] using hx
      have hreach : Relation.ReflTransGen (Edge subs) id b := by
        apply ih id post b rest'
        · rw [hrest]
          exact hch'.2
        · exact hrest
      exact hreach.tail hch'.1

/-- A back edge into the grey stack closes a dependency cycle. -/
theorem cycle_of_visiting (subs : List SubRec) (visiting : List String) (id : String)
    (hch : StackChain subs visiting) (hhd : HeadEdge subs visiting id)
    (hmem : id ∈ visiting) : HasCycle subs := by
  obtain ⟨pre, post, rfl⟩ := List.append_of_mem hmem
  obtain ⟨h, t, hht⟩ : ∃ h t, pre ++ id :: post = h :: t := by
    cases hc : pre ++ id :: post with
    | nil => exact absurd hc (by simp)
    | cons a b => exact ⟨a, b, rfl⟩
  have hreach := chain_reaches subs pre id post h t hch hht
  have hedge : Edge subs h id := hhd h t hht
  exact ⟨id, Relation.TransGen.tail' hreach hedge⟩

/-- `visit` only throws on an actual dependency cycle, provided the grey
stack is an edge chain and the visited id hangs off its top. -/
theorem visit_sound (subs : List SubRec) : ∀ fuel id st,
    StackChain subs st.visiting → HeadEdge subs st.visiting id →
    visit subs fuel id st = some (Except.error ()) → HasCycle subs := by
  intro fuel
  induction fuel with
  | zero =>
    intro id st _ _ h
    exact absurd h (by simp [visit])
  | succ m ih =>
    have fold_sound : ∀ l st, StackChain subs st.visiting →
        (∀ d ∈ l, HeadEdge subs st.visiting d) →
        visitFold (fun d s => visit subs m d s) l st = some (Except.error ()) →
        HasCycle subs := by
      intro l
      induction l with
      | nil =>
        intro st _ _ h
        exact absurd h (by simp [visitFold])
      | cons d rest ihl =>
        intro st hch hds h
        unfold visitFold at h
        cases hstep : visit subs m d st with
        | none => rw [hstep] at h; exact absurd h (by simp)
        | some r =>
          cases r with
          | error e =>
            cases e
            exact ih d st hch (hds d (List.mem_cons_self _ _)) hstep
          | ok st1 =>
            rw [hstep] at h
            have hv1 := (visit_ok subs m d st st1 hstep).1
            apply ihl st1
            · rw [hv1]
              exact hch
            · intro d' hd'
              rw [hv1]
              exact hds d' (List.mem_cons_of_mem _ hd')
            · exact h
    intro id st hch hhd h
    unfold visit at h
    by_cases hv : id ∈ st.visited
    · rw [if_pos hv] at h
      exact absurd h (by simp)
    · rw [if_neg hv] at h
      by_cases hvg : id ∈ st.visiting
      · exact cycle_of_visiting subs st.visiting id hch hhd hvg
      · rw [if_neg hvg] at h
        cases hfold : visitFold (fun d s => visit subs m d s) (depsOf subs id)
            ⟨id :: st.visiting, st.visited⟩ with
        | none => rw [hfold] at h; exact absurd h (by simp)
        | some r =>
          cases r with
          | ok stM => rw [hfold] at h; exact absurd h (by simp)
          | error e =>
            cases e
            apply fold_sound (depsOf subs id) ⟨id :: st.visiting, st.visited⟩ ?_ ?_ hfold
            · show StackChain subs (id :: st.visiting)
              cases hvis : st.visiting with
              | nil => simp [StackChain]
              | cons hh tt =>
                have hedge : Edge subs hh id := hhd hh tt hvis
                have hch' : StackChain subs (hh :: tt) := by
                  rw [← hvis]
                  exact hch
                exact ⟨hedge, hch'⟩
            · intro d hd hh tt heq
              obtain rfl : id = hh := by simpa using congrArg (fun l => l.headD "") heq
              exact hd

/-- Every dependency id the DFS can recurse into lies in `allIds`. -/
theorem depsOf_subset_allIds (subs : List SubRec) (id : String) :
    ∀ d ∈ depsOf subs id, d ∈ allIds subs := by
  intro d hd
  unfold depsOf at hd
  cases hfind : subs.find? (fun s => s.id == id) with
  | none =>
    rw [hfind] at hd
    exact absurd hd (List.not_mem_nil d)
  | some s =>
    rw [hfind] at hd
    have hsmem : s ∈ subs := List.mem_of_find?_eq_some hfind
    unfold allIds
    exact List.mem_append.mpr (Or.inr (List.mem_flatMap.mpr ⟨s, hsmem, hd⟩))

/-- With fuel exceeding the number of ids not yet on the grey stack, `visit`
cannot run out of fuel. -/
theorem visit_fuel (subs : List SubRec) : ∀ fuel id st,
    id ∈ allIds subs → (∀ x ∈ st.visiting, x ∈ allIds subs) → st.visiting.Nodup →
    (allIds subs).length < fuel + st.visiting.length →
    visit subs fuel id st ≠ none := by
  intro fuel
  induction fuel with
  | zero =>
    intro id st _ hsub hnd hlen
    have hle : st.visiting.length ≤ (allIds subs).length :=
      (List.subperm_of_subset hnd (fun x hx => hsub x hx)).length_le
    omega
  | succ m ih =>
    have fold_fuel : ∀ l st, (∀ d ∈ l, d ∈ allIds subs) →
        (∀ x ∈ st.visiting, x ∈ allIds subs) → st.visiting.Nodup →
        (allIds subs).length < m + st.visiting.length →
        visitFold (fun d s => visit subs m d s) l st ≠ none := by
      intro l
      induction l with
      | nil =>
        intro st _ _ _ _
        simp [visitFold]
      | cons d rest ihl =>
        intro st hdl hsub hnd hlen
        unfold visitFold
        cases hstep : visit subs m d st with
        | none =>
          exact absurd hstep (ih d st (hdl d (List.mem_cons_self _ _)) hsub hnd hlen)
        | some r =>
          cases r with
          | error e => simp
          | ok st1 =>
            have hv1 := (visit_ok subs m d st st1 hstep).1
            apply ihl st1
            · intro d' hd'
              exact hdl d' (List.mem_cons_of_mem _ hd')
            · rw [hv1]
              exact hsub
            · rw [hv1]
              exact hnd
            · rw [hv1]
              exact hlen
    intro id st hid hsub hnd hlen
    unfold visit
    by_cases hv : id ∈ st.visited
    · rw [if_pos hv]
      simp
    · rw [if_neg hv]
      by_cases hvg : id ∈ st.visiting
      · rw [if_pos hvg]
        simp
      · rw [if_neg hvg]
        have hfold : visitFold (fun d s => visit subs m d s) (depsOf subs id)
            ⟨id :: st.visiting, st.visited⟩ ≠ none := by
          apply fold_fuel
          · exact depsOf_subset_allIds subs id
          · intro x hx
            rcases List.mem_cons.mp hx with rfl | hx'
            · exact hid
            · exact hsub x hx'
          · exact List.nodup_cons.mpr ⟨hvg, hnd⟩
          · show (allIds subs).length < m + (id :: st.visiting).length
            simp only [List.length_cons]
            omega
        cases hfoldv : visitFold (fun d s => visit subs m d s) (depsOf subs id)
            ⟨id :: st.visiting, st.visited⟩ with
        | none => exact absurd hfoldv hfold
        | some r =>
          cases r with
          | error e => simp
          | ok stM => simp

/-- Within a `Good` list, dependency edges starting in the tail stay in the
tail. -/
theorem good_tail_closed (subs : List SubRec) : ∀ (L : List String) (a : String),
    Good subs (a :: L) → ∀ y ∈ L, ∀ w, Edge subs y w → w ∈ L := by
  intro L
  induction L with
  | nil =>
    intro a _ y hy
    exact absurd hy (List.not_mem_nil y)
  | cons b L' ihl =>
    intro a hg y hy w hyw
    rcases List.mem_cons.mp hy with rfl | hy'
    · exact List.mem_cons_of_mem _ (hg.2.1 w hyw)
    · exact List.mem_cons_of_mem _ (ihl b hg.2 y hy' w hyw)

/-- Edge-paths starting in the tail of a `Good` list stay in the tail. -/
theorem good_reach_stays (subs : List SubRec) (L : List String) (a : String)
    (hg : Good subs (a :: L)) :
    ∀ z w, Relation.ReflTransGen (Edge subs) z w → z ∈ L → w ∈ L := by
  intro z w hzw
  induction hzw with
  | refl => exact fun hz => hz
  | tail hab hbc ihz =>
    intro hz
    exact good_tail_closed subs L a hg _ (ihz hz) _ hbc

/-- No member of a duplicate-free topologically ordered list lies on a
dependency cycle. -/
theorem good_no_cycle (subs : List SubRec) : ∀ (L : List String),
    Good subs L → L.Nodup → ∀ x ∈ L, ¬ Relation.TransGen (Edge subs) x x := by
  intro L
  induction L with
  | nil =>
    intro _ _ x hx
    exact absurd hx (List.not_mem_nil x)
  | cons a L' ihl =>
    intro hg hn x hx hcyc
    rcases List.mem_cons.mp hx with rfl | hx'
    · obtain ⟨b, hab, hba⟩ := Relation.TransGen.head'_iff.mp hcyc
      have hb : b ∈ L' := hg.1 b hab
      have ha : x ∈ L' := good_reach_stays subs L' x hg b x hba hb
      exact (List.nodup_cons.mp hn).1 ha
    · exact ihl hg.2 (List.nodup_cons.mp hn).2 x hx' hcyc

/-- The source of any dependency edge is a subtask id of the graph. -/
theorem edge_source_mem (subs : List SubRec) (x y : String) (h : Edge subs x y) :
    x ∈ subs.map (fun s => s.id) := by
  unfold Edge depsOf at h
  cases hfind : subs.find? (fun s => s.id == x) with
  | none =>
    rw [hfind] at h
    exact absurd h (List.not_mem_nil y)
  | some s =>
    have hsx : s.id = x := by
      simpa using List.find?_some (p := fun s : SubRec => s.id == x) hfind
    exact hsx ▸ List.mem_map_of_mem _ (List.mem_of_find?_eq_some hfind)

/-- Fuel sufficiency lifted to the top-level loop over all subtask ids. -/
theorem visitFold_fuel (subs : List SubRec) (fuel : Nat) :
    ∀ l st, (∀ d ∈ l, d ∈ allIds subs) → (∀ x ∈ st.visiting, x ∈ allIds subs) →
    st.visiting.Nodup → (allIds subs).length < fuel + st.visiting.length →
    visitFold (fun d s => visit subs fuel d s) l st ≠ none := by
  intro l
  induction l with
  | nil =>
    intro st _ _ _ _
    simp [visitFold]
  | cons d rest ihl =>
    intro st hdl hsub hnd hlen
    unfold visitFold
    cases hstep : visit subs fuel d st with
    | none =>
      exact absurd hstep
        (visit_fuel subs fuel d st (hdl d (List.mem_cons_self _ _)) hsub hnd hlen)
    | some r =>
      cases r with
      | error e => simp
      | ok st1 =>
        have hv1 := (visit_ok subs fuel d st st1 hstep).1
        apply ihl st1 (fun d' hd' => hdl d' (List.mem_cons_of_mem _ hd'))
        · rw [hv1]
          exact hsub
        · rw [hv1]
          exact hnd
        · rw [hv1]
          exact hlen

/-- Monotonicity of `visited` across the top-level loop. -/
theorem visitFold_ok_aux (subs : List SubRec) (fuel : Nat) :
    ∀ l st st', visitFold (fun d s => visit subs fuel d s) l st = some (Except.ok st') →
    ∀ x ∈ st.visited, x ∈ st'.visited := by
  intro l
  induction l with
  | nil =>
    intro st st' h
    obtain rfl : st = st' := by simpa [visitFold] using h
    exact fun x hx => hx
  | cons d rest ihl =>
    intro st st' h
    unfold visitFold at h
    cases hstep : visit subs fuel d st with
    | none => rw [hstep] at h; exact absurd h (by simp)
    | some r =>
      cases r with
      | error e => rw [hstep] at h; exact absurd h (by simp)
      | ok st1 =>
        rw [hstep] at h
        obtain ⟨_, hm1, _, _, _⟩ := visit_ok subs fuel d st st1 hstep
        exact fun x hx => ihl st1 st' h x (hm1 x hx)

/-- Success invariants lifted to the top-level loop over all subtask ids. -/
theorem visitFold_ok_top (subs : List SubRec) (fuel : Nat) :
    ∀ l st st', visitFold (fun d s => visit subs fuel d s) l st = some (Except.ok st') →
    st'.visiting = st.visiting ∧
    (∀ d ∈ l, d ∈ st'.visited) ∧
    (Good subs st.visited → st.visited.Nodup → Good subs st'.visited ∧ st'.visited.Nodup) := by
  intro l
  induction l with
  | nil =>
    intro st st' h
    obtain rfl : st = st' := by simpa [visitFold] using h
    exact ⟨rfl, by simp, fun g n => ⟨g, n⟩⟩
  | cons d rest ihl =>
    intro st st' h
    unfold visitFold at h
    cases hstep : visit subs fuel d st with
    | none => rw [hstep] at h; exact absurd h (by simp)
    | some r =>
      cases r with
      | error e => rw [hstep] at h; exact absurd h (by simp)
      | ok st1 =>
        rw [hstep] at h
        obtain ⟨hv1, hm1, hd1, _, hg1⟩ := visit_ok subs fuel d st st1 hstep
        obtain ⟨hv2, hd2, hg2⟩ := ihl st1 st' h
        refine ⟨hv2.trans hv1, ?_, ?_⟩
        · intro d' hd'
          rcases List.mem_cons.mp hd' with rfl | hd''
          · exact visitFold_ok_aux subs fuel rest st1 st' h d' hd1
          · exact hd2 d' hd''
        · intro g n
          obtain ⟨g1, n1⟩ := hg1 g n
          exact hg2 g1 n1

/-- Error soundness lifted to the top-level loop over all subtask ids. -/
theorem visitFold_sound_top (subs : List SubRec) (fuel : Nat) :
    ∀ l st, StackChain subs st.visiting → (∀ d ∈ l, HeadEdge subs st.visiting d) →
    visitFold (fun d s => visit subs fuel d s) l st = some (Except.error ()) →
    HasCycle subs := by
  intro l
  induction l with
  | nil =>
    intro st _ _ h
    exact absurd h (by simp [visitFold])
  | cons d rest ihl =>
    intro st hch hds h
    unfold visitFold at h
    cases hstep : visit subs fuel d st with
    | none => rw [hstep] at h; exact absurd h (by simp)
    | some r =>
      cases r with
      | error e =>
        cases e
        exact visit_sound subs fuel d st hch (hds d (List.mem_cons_self _ _)) hstep
      | ok st1 =>
        rw [hstep] at h
        have hv1 := (visit_ok subs fuel d st st1 hstep).1
        apply ihl st1
        · rw [hv1]
          exact hch
        · intro d' hd'
          rw [hv1]
          exact hds d' (List.mem_cons_of_mem _ hd')
        · exact h

/-- A dependency list whose entries all exist and avoid self-reference
passes `checkDepList`. -/
theorem checkDepList_ok (ids : List String) (sid : String) :
    ∀ deps, (∀ d ∈ deps, (ids.contains d && d != sid) = true) →
      checkDepList ids sid deps = .ok () := by
  intro deps
  induction deps with
  | nil => intro _; rfl
  | cons d rest ihd =>
    intro hall
    have hd := hall d (List.mem_cons_self _ _)
    rw [Bool.and_eq_true] at hd
    obtain ⟨hc, hne⟩ := hd
    have hne' : (d == sid) = false := by
      cases h2 : d == sid
      · rfl
      · exfalso
        have hb : (d != sid) = false := by simp [bne, h2]
        rw [hb] at hne
        exact Bool.false_ne_true hne
    simp only [checkDepList, hc, hne', Bool.not_true]
    simp only [Bool.false_eq_true, if_false]
    exact ihd (fun d' hd' => hall d' (List.mem_cons_of_mem _ hd'))

/-- The first validation pass passes when every subtask's dependencies exist
and avoid self-reference. -/
theorem checkSubtaskDeps_ok (ids : List String) :
    ∀ l, (∀ s ∈ l, ∀ d ∈ s.dependsOn, (ids.contains d && d != s.id) = true) →
      checkSubtaskDeps ids l = .ok () := by
  intro l
  induction l with
  | nil => intro _; rfl
  | cons s rest ihl =>
    intro hall
    have h1 : checkDepList ids s.id s.dependsOn = .ok () :=
      checkDepList_ok ids s.id s.dependsOn (hall s (List.mem_cons_self _ _))
    simp only [checkSubtaskDeps, h1]
    exact ihl (fun s' hs' => hall s' (List.mem_cons_of_mem _ hs'))

/-- Unpacking `depChecksOk`. -/
theorem depChecksOk_spec (subs : List SubRec) (h : depChecksOk subs = true) :
    ∀ s ∈ subs, ∀ d ∈ s.dependsOn,
      ((subs.map (fun x => x.id)).contains d && d != s.id) = true := by
  unfold depChecksOk at h
  rw [List.all_eq_true] at h
  intro s hs d hd
  have h2 := h s hs
  rw [List.all_eq_true] at h2
  exact h2 d hd

/-- C6 (amended): for every subtask graph that passes the
dependency-reference and self-dependency checks, `validateSubtaskGraph`
rejects with 400 `subtask dependency cycle detected` exactly when the
dependency graph has a cycle — in particular, every acyclic graph passes
the cycle check. -/
theorem validateSubtaskGraph_cycle_iff (subs : List SubRec) (hpre : depChecksOk subs = true) :
    validateSubtaskGraph subs =
        Except.error ⟨400, "subtask dependency cycle detected"⟩ ↔
      HasCycle subs := by
  have hcheck : checkSubtaskDeps (subs.map (fun s => s.id)) subs = .ok () :=
    checkSubtaskDeps_ok _ subs (depChecksOk_spec subs hpre)
  have hvalid : validateSubtaskGraph subs =
      match visitFold (fun d st => visit subs (cycleFuel subs) d st)
          (subs.map (fun s => s.id)) ⟨[], []⟩ with
      | some (Except.error _) => Except.error ⟨400, "subtask dependency cycle detected"⟩
      | _ => Except.ok () := by
    unfold validateSubtaskGraph
    simp only [hcheck]
  cases hfold : visitFold (fun d st => visit subs (cycleFuel subs) d st)
      (subs.map (fun s => s.id)) ⟨[], []⟩ with
  | none =>
    exfalso
    apply visitFold_fuel subs (cycleFuel subs) (subs.map (fun s => s.id)) ⟨[], []⟩ ?_ ?_ ?_ ?_ hfold
    · intro d hd
      unfold allIds
      exact List.mem_append.mpr (Or.inl hd)
    · intro x hx
      exact absurd hx (List.not_mem_nil x)
    · exact List.nodup_nil
    · show (allIds subs).length < cycleFuel subs + ([] : List String).length
      unfold cycleFuel
      simp
  | some r =>
    cases r with
    | error e =>
      cases e
      have hcyc : HasCycle subs := by
        apply visitFold_sound_top subs (cycleFuel subs) (subs.map (fun s => s.id))
          ⟨[], []⟩ ?_ ?_ hfold
        · show StackChain subs []
          trivial
        · intro d _ hh tt heq
          exact absurd heq (by simp)
      constructor
      · intro _
        exact hcyc
      · intro _
        rw [hvalid, hfold]
    | ok st' =>
      obtain ⟨_, hids, hgn⟩ :=
        visitFold_ok_top subs (cycleFuel subs) (subs.map (fun s => s.id)) ⟨[], []⟩ st' hfold
      obtain ⟨hgood, hnodup⟩ := hgn trivial List.nodup_nil
      have hnocyc : ¬ HasCycle subs := by
        rintro ⟨x, hcycx⟩
        obtain ⟨b, hxb, _⟩ := Relation.TransGen.head'_iff.mp hcycx
        have hxmem : x ∈ subs.map (fun s => s.id) := edge_source_mem subs x b hxb
        exact good_no_cycle subs st'.visited hgood hnodup x (hids x hxmem) hcycx
      constructor
      · intro heq
        rw [hvalid, hfold] at heq
        exact absurd heq (by simp)
      · intro hcycx
        exact absurd hcycx hnocyc

/-- Witness for C6 (amended) on a concrete acyclic two-subtask chain. -/
theorem validateSubtaskGraph_cycle_iff_witness :
    validateSubtaskGraph subsChain =
        Except.error ⟨400, "subtask dependency cycle detected"⟩ ↔
      HasCycle subsChain :=
  validateSubtaskGraph_cycle_iff subsChain (by decide)

/-- Counterexample to C6 as stated: a self-dependency is a one-edge cycle,
yet creation rejects it with `subtask cannot depend on itself: a`, not with
the cycle message. -/
theorem validateSubtaskGraph_selfdep_counterexample :
    HasCycle subsSelfLoop ∧
    validateSubtaskGraph subsSelfLoop =
      Except.error ⟨400, "subtask cannot depend on itself: a"⟩ ∧
    validateSubtaskGraph subsSelfLoop ≠
      Except.error ⟨400, "subtask dependency cycle detected"⟩ := by
  refine ⟨⟨"a", Relation.TransGen.single ?_⟩, rfl, ?_⟩
  · show "a" ∈ depsOf subsSelfLoop "a"
    decide
  · intro h
    have h' : validateSubtaskGraph subsSelfLoop =
        Except.error ⟨400, "subtask cannot depend on itself: a"⟩ := rfl
    rw [h'] at h
    have hmsg : (⟨400, "subtask cannot depend on itself: a"⟩ : HttpError) =
        ⟨400, "subtask dependency cycle detected"⟩ := by
      injection h
    exact absurd hmsg (by decide)

end AcpBridge
